import Mathlib

/-!
Verification development for the strava-dumper normalization-and-aggregation
pipeline.  The Python sources are shallowly embedded: texts are `List Char`,
tables are association lists of columns, money-free rational arithmetic (`ℚ`)
stands for the float arithmetic of pandas, and the wall clock ("now") is an
explicit parameter.  Library behaviour that the scripts rely on
(`json.loads`, `str.replace`, `str.rstrip`, pandas coercion and grouping,
`isocalendar`) is modelled by executable Lean functions, restricted to the
compact fragment actually exercised by the scripts (no whitespace skipping,
no escape sequences, non-negative integer JSON numbers).
-/

namespace Strava

/-- Character list of a string literal; texts are modelled as `List Char`. -/
def s2l (s : String) : List Char := s.data

/-- Boolean test that `pat` starts the list `s` (models Python `startswith`). -/
def leadsWith : List Char → List Char → Bool
  | [], _ => true
  | _ :: _, [] => false
  | p :: ps, c :: cs => p == c && leadsWith ps cs

/-- Boolean substring test, modelling the Python expression `pat in content`. -/
def substrB (pat : List Char) : List Char → Bool
  | [] => pat.isEmpty
  | c :: rest => leadsWith pat (c :: rest) || substrB pat rest

/-- Models `content.replace('][', ',')`: one left-to-right non-overlapping
scan replacing each adjacent-array marker by a comma. -/
def replaceAdj : List Char → List Char
  | [] => []
  | [c] => [c]
  | c1 :: c2 :: rest =>
    if c1 = ']' ∧ c2 = '[' then ',' :: replaceAdj rest
    else c1 :: replaceAdj (c2 :: rest)

/-- Models Python `s.rstrip(chars)`: drop trailing characters satisfying `p`. -/
def rstripP (p : Char → Bool) (s : List Char) : List Char :=
  (s.reverse.dropWhile p).reverse

/-- Character class of `rstrip('[]')`. -/
def isSqBracket (c : Char) : Bool := c == '[' || c == ']'

/-- Character class of `rstrip(',')`. -/
def isCommaCh (c : Char) : Bool := c == ','

/-- Models `content.endswith(']')`. -/
def endsWithRb (s : List Char) : Bool :=
  match s.reverse with
  | c :: _ => c == ']'
  | [] => false

/-- Stripping step of the Repairer (line 85): strip trailing brackets, then
trailing commas. -/
def repairStrip (c1 : List Char) : List Char :=
  rstripP isCommaCh (rstripP isSqBracket c1)

/-- Closing step of the Repairer (lines 88-89): re-append a closing bracket
when the text does not end with one. -/
def repairClose (c2 : List Char) : List Char :=
  if endsWithRb c2 then c2 else c2 ++ [']']

/-- The JSON Repairer of `convert_json_to_parquet`
(`strava_activities_json_to_parquet.py`, lines 79-89): replace adjacent-array
markers by commas when present, strip trailing brackets then trailing commas,
and re-append a closing bracket when the text no longer ends with one. -/
def repairText (content : List Char) : List Char :=
  repairClose (repairStrip
    (if substrB (s2l "][") content then replaceAdj content else content))

/-- JSON values as produced by `json.loads` (numbers restricted to the
non-negative integers the model serializes). -/
inductive JVal : Type where
  | num (n : Nat)
  | str (s : List Char)
  | bool (b : Bool)
  | null
  | arr (elems : List JVal)
  | obj (fields : List (List Char × JVal))

/-- Little-endian base-10 digits of a number, fuel-structured so the kernel
can evaluate it; `fuel = n` always suffices. -/
def digitsAux : Nat → Nat → List Nat
  | 0, _ => []
  | _ + 1, 0 => []
  | f + 1, n + 1 => (n + 1) % 10 :: digitsAux f ((n + 1) / 10)

/-- Decimal rendering of a natural number. -/
def natChars (n : Nat) : List Char :=
  if n = 0 then ['0'] else ((digitsAux n n).reverse.map Nat.digitChar)

/-- Numeric value of a string of decimal digits. -/
def strToNat (ds : List Char) : Nat :=
  ds.foldl (fun a c => 10 * a + (c.toNat - 48)) 0

/-- Comma-join of rendered fragments (the body of a compact JSON array). -/
def joinComma : List (List Char) → List Char
  | [] => []
  | [x] => x
  | x :: xs => x ++ ',' :: joinComma xs

/-- Compact JSON text of an array of numbers, the textual form referenced by
the Repairer properties. -/
def serNumArray (l : List Nat) : List Char :=
  '[' :: joinComma (l.map natChars) ++ [']']

/-- Parse a leading decimal number (maximal digit run), as `json.loads` does. -/
def parseNum (s : List Char) : Option (Nat × List Char) :=
  let ds := s.takeWhile Char.isDigit
  if ds.isEmpty then none else some (strToNat ds, s.dropWhile Char.isDigit)

/-- Parse the body of a JSON string after the opening quote (the model covers
texts without escape sequences). -/
def parseStrBody : List Char → Option (List Char × List Char)
  | [] => none
  | c :: rest =>
    if c = '"' then some ([], rest)
    else (parseStrBody rest).map (fun p => (c :: p.1, p.2))

mutual

/-- Recursive-descent parser for compact JSON values, modelling `json.loads`.
The fuel argument only bounds nesting of the recursion; `jsonLoads` supplies
enough fuel for any input. -/
def parseVal : Nat → List Char → Option (JVal × List Char)
  | 0, _ => none
  | fuel + 1, s =>
    match s with
    | [] => none
    | c :: rest =>
      if c = '[' then
        if rest.head? = some ']' then some (.arr [], rest.tail)
        else (parseElems fuel rest).map (fun p => (.arr p.1, p.2))
      else if c = '{' then
        if rest.head? = some '}' then some (.obj [], rest.tail)
        else (parseFields fuel rest).map (fun p => (.obj p.1, p.2))
      else if c = '"' then
        (parseStrBody rest).map (fun p => (.str p.1, p.2))
      else if c = 't' then
        if leadsWith (s2l "rue") rest then some (.bool true, rest.drop 3) else none
      else if c = 'f' then
        if leadsWith (s2l "alse") rest then some (.bool false, rest.drop 4) else none
      else if c = 'n' then
        if leadsWith (s2l "ull") rest then some (.null, rest.drop 3) else none
      else
        (parseNum (c :: rest)).map (fun p => (.num p.1, p.2))

/-- Parse the comma-separated elements of a non-empty array up to and
including the closing bracket. -/
def parseElems : Nat → List Char → Option (List JVal × List Char)
  | 0, _ => none
  | fuel + 1, s =>
    match parseVal fuel s with
    | none => none
    | some (v, rest) =>
      match rest with
      | ',' :: rest2 =>
        match parseElems fuel rest2 with
        | none => none
        | some (l, r) => some (v :: l, r)
      | ']' :: rest2 => some ([v], rest2)
      | _ => none

/-- Parse the fields of a non-empty object up to and including the closing
brace. -/
def parseFields : Nat → List Char → Option (List (List Char × JVal) × List Char)
  | 0, _ => none
  | fuel + 1, s =>
    match s with
    | '"' :: rest =>
      match parseStrBody rest with
      | none => none
      | some (k, rest1) =>
        match rest1 with
        | ':' :: rest2 =>
          match parseVal fuel rest2 with
          | none => none
          | some (v, rest3) =>
            match rest3 with
            | ',' :: rest4 =>
              match parseFields fuel rest4 with
              | none => none
              | some (fs, r) => some ((k, v) :: fs, r)
            | '}' :: rest4 => some ([(k, v)], rest4)
            | _ => none
        | _ => none
    | _ => none

end

/-- Model of `json.loads`: parse one value and require the whole text to be
consumed; `none` models a raised `JSONDecodeError`. -/
def jsonLoads (s : List Char) : Option JVal :=
  match parseVal (s.length + 1) s with
  | some (v, []) => some v
  | _ => none

/-! Facts about decimal rendering. -/

lemma digitsAux_lt (f : Nat) : ∀ n d, d ∈ digitsAux f n → d < 10 := by
  induction f with
  | zero => intro n d h; simp [digitsAux] at h
  | succ f ih =>
    intro n d h
    cases n with
    | zero => simp [digitsAux] at h
    | succ m =>
      simp only [digitsAux, List.mem_cons] at h
      rcases h with h | h
      · subst h; exact Nat.mod_lt _ (by omega)
      · exact ih _ _ h

lemma digitChar_isDigit {d : Nat} (h : d < 10) : (Nat.digitChar d).isDigit = true := by
  interval_cases d <;> decide

lemma digitChar_val {d : Nat} (h : d < 10) : (Nat.digitChar d).toNat - 48 = d := by
  interval_cases d <;> decide

lemma digitsAux_foldr (f : Nat) : ∀ n, n ≤ f →
    (digitsAux f n).foldr (fun d a => 10 * a + ((Nat.digitChar d).toNat - 48)) 0 = n := by
  induction f with
  | zero => intro n h; interval_cases n; simp [digitsAux]
  | succ f ih =>
    intro n h
    cases n with
    | zero => simp [digitsAux]
    | succ m =>
      have hle : (m + 1) / 10 ≤ f := by
        have hlt : (m + 1) / 10 < m + 1 := Nat.div_lt_self (by omega) (by omega)
        omega
      simp only [digitsAux, List.foldr_cons, ih _ hle]
      rw [digitChar_val (Nat.mod_lt _ (by omega))]
      omega

lemma natChars_ne_nil (n : Nat) : natChars n ≠ [] := by
  unfold natChars
  split
  · simp
  · rename_i h
    cases n with
    | zero => exact absurd rfl h
    | succ m => simp [digitsAux]

lemma natChars_isDigit (n : Nat) : ∀ c ∈ natChars n, c.isDigit = true := by
  unfold natChars
  split
  · intro c hc; simp at hc; subst hc; decide
  · intro c hc
    simp only [List.mem_map, List.mem_reverse] at hc
    obtain ⟨d, hd, rfl⟩ := hc
    exact digitChar_isDigit (digitsAux_lt _ _ _ hd)

lemma strToNat_natChars (n : Nat) : strToNat (natChars n) = n := by
  unfold natChars strToNat
  split
  · rename_i h; subst h; rfl
  · rw [List.foldl_map, List.foldl_reverse]
    exact digitsAux_foldr n n le_rfl

lemma natChars_decomp (n : Nat) :
    ∃ x c, natChars n = x ++ [c] ∧ c.isDigit = true := by
  refine ⟨(natChars n).dropLast, (natChars n).getLast (natChars_ne_nil n), ?_, ?_⟩
  · exact (List.dropLast_append_getLast (natChars_ne_nil n)).symm
  · exact natChars_isDigit n _ (List.getLast_mem _)

lemma natChars_cons (n : Nat) :
    ∃ d ds, natChars n = d :: ds ∧ d.isDigit = true := by
  obtain ⟨d, ds, h⟩ := List.exists_cons_of_ne_nil (natChars_ne_nil n)
  exact ⟨d, ds, h, natChars_isDigit n d (by rw [h]; exact List.mem_cons_self _ _)⟩

lemma isDigit_ne_specials {c : Char} (h : c.isDigit = true) :
    c ≠ '[' ∧ c ≠ ']' ∧ c ≠ '{' ∧ c ≠ '"' ∧ c ≠ 't' ∧ c ≠ 'f' ∧ c ≠ 'n' ∧ c ≠ ',' := by
  refine ⟨?_, ?_, ?_, ?_, ?_, ?_, ?_, ?_⟩ <;>
    (rintro rfl; exact absurd h (by decide))

/-! Round-trip of the parser on serialized arrays of numbers. -/

lemma parseNum_natChars {c : Char} (n : Nat) (r : List Char)
    (hc : c.isDigit = false) :
    parseNum (natChars n ++ c :: r) = some (n, c :: r) := by
  unfold parseNum
  rw [List.takeWhile_append_of_pos (natChars_isDigit n),
      List.dropWhile_append_of_pos (natChars_isDigit n)]
  rw [List.takeWhile_cons_of_neg (by simp [hc]), List.dropWhile_cons_of_neg (by simp [hc])]
  simp [List.isEmpty_iff, natChars_ne_nil n, strToNat_natChars]

lemma parseVal_natChars {c : Char} (f n : Nat) (r : List Char)
    (hc : c.isDigit = false) :
    parseVal (f + 1) (natChars n ++ c :: r) = some (.num n, c :: r) := by
  obtain ⟨d, ds, hds, hd⟩ := natChars_cons n
  obtain ⟨h1, h2, h3, h4, h5, h6, h7, h8⟩ := isDigit_ne_specials hd
  rw [hds, List.cons_append, parseVal]
  rw [if_neg h1, if_neg h3, if_neg h4, if_neg h5, if_neg h6, if_neg h7]
  rw [← List.cons_append, ← hds, parseNum_natChars n r hc]
  rfl

lemma parseElems_ser : ∀ (l : List Nat) (f : Nat) (r : List Char), l ≠ [] →
    2 * l.length ≤ f →
    parseElems f (joinComma (l.map natChars) ++ ']' :: r) = some (l.map JVal.num, r) := by
  intro l
  induction l with
  | nil => intro f r h; exact absurd rfl h
  | cons n tl ih =>
    intro f r _ hf
    cases tl with
    | nil =>
      obtain ⟨f1, rfl⟩ : ∃ f1, f = f1 + 2 := ⟨f - 2, by simp at hf; omega⟩
      show parseElems (f1 + 1 + 1) (natChars n ++ ']' :: r) = _
      rw [parseElems, parseVal_natChars f1 n r (by decide)]
      rfl
    | cons m tl2 =>
      obtain ⟨f1, rfl⟩ : ∃ f1, f = f1 + 2 := ⟨f - 2, by simp at hf; omega⟩
      have hjoin : joinComma ((n :: m :: tl2).map natChars)
          = natChars n ++ ',' :: joinComma ((m :: tl2).map natChars) := by
        simp [joinComma]
      rw [hjoin, List.append_assoc, List.cons_append]
      show parseElems (f1 + 1 + 1) (natChars n ++ (',' :: _)) = _
      rw [parseElems, parseVal_natChars f1 n _ (by decide)]
      have hih := ih (f1 + 1) r (by simp) (by simp at hf ⊢; omega)
      simp only [hih]
      rfl

lemma joinComma_ne_nil (l : List Nat) (h : l ≠ []) :
    joinComma (l.map natChars) ≠ [] := by
  cases l with
  | nil => exact absurd rfl h
  | cons n tl =>
    cases tl with
    | nil => simpa [joinComma] using natChars_ne_nil n
    | cons m tl2 =>
      simp only [List.map_cons, joinComma]
      intro hx
      exact natChars_ne_nil n (List.append_eq_nil.mp hx).1

lemma joinComma_length (l : List Nat) (h : l ≠ []) :
    2 * l.length ≤ (joinComma (l.map natChars)).length + 1 := by
  induction l with
  | nil => exact absurd rfl h
  | cons n tl ih =>
    cases tl with
    | nil =>
      have := List.length_pos.mpr (natChars_ne_nil n)
      simp [joinComma]; omega
    | cons m tl2 =>
      have h1 := List.length_pos.mpr (natChars_ne_nil n)
      have h2 := ih (by simp)
      simp only [List.map_cons, joinComma, List.length_append, List.length_cons] at h2 ⊢
      omega

lemma joinComma_cons_digit (l : List Nat) (h : l ≠ []) :
    ∃ d ds, joinComma (l.map natChars) = d :: ds ∧ d.isDigit = true := by
  cases l with
  | nil => exact absurd rfl h
  | cons n tl =>
    obtain ⟨d, ds0, hds, hd⟩ := natChars_cons n
    cases tl with
    | nil => exact ⟨d, ds0, by simpa [joinComma] using hds, hd⟩
    | cons m tl2 =>
      refine ⟨d, ds0 ++ ',' :: joinComma ((m :: tl2).map natChars), ?_, hd⟩
      simp [joinComma, hds]

lemma parseVal_ser (l : List Nat) (f : Nat) (hl : l ≠ []) (hf : 2 * l.length ≤ f) :
    parseVal (f + 1) (serNumArray l) = some (.arr (l.map .num), []) := by
  obtain ⟨d, ds, hds, hd⟩ := joinComma_cons_digit l hl
  unfold serNumArray
  rw [hds, List.cons_append, parseVal, if_pos rfl]
  rw [if_neg (by simp [(isDigit_ne_specials hd).2.1])]
  rw [← hds, parseElems_ser l f [] hl hf]
  rfl

theorem jsonLoads_serNumArray (l : List Nat) :
    jsonLoads (serNumArray l) = some (.arr (l.map .num)) := by
  cases l with
  | nil => rfl
  | cons n tl =>
    unfold jsonLoads
    have hlen : (serNumArray (n :: tl)).length
        = (joinComma ((n :: tl).map natChars)).length + 2 := by
      simp [serNumArray]
    rw [hlen, parseVal_ser (n :: tl) _ (by simp)
      (by have := joinComma_length (n :: tl) (by simp); omega)]

/-! Character-level facts about the body of a serialized number array. -/

lemma joinComma_chars (l : List Nat) :
    ∀ c ∈ joinComma (l.map natChars), c.isDigit = true ∨ c = ',' := by
  induction l with
  | nil => simp [joinComma]
  | cons n tl ih =>
    cases tl with
    | nil =>
      intro c hc
      simp only [List.map_cons, List.map_nil, joinComma] at hc
      exact Or.inl (natChars_isDigit n c hc)
    | cons m tl2 =>
      intro c hc
      simp only [List.map_cons, joinComma, List.mem_append, List.mem_cons] at hc
      rcases hc with h | h | h
      · exact Or.inl (natChars_isDigit n c h)
      · exact Or.inr h
      · exact ih c (by simpa [joinComma] using h)

lemma joinComma_no_bracket (l : List Nat) :
    ']' ∉ joinComma (l.map natChars) ∧ '[' ∉ joinComma (l.map natChars) := by
  constructor <;>
    · intro hmem
      rcases joinComma_chars l _ hmem with h | h
      · exact absurd h (by decide)
      · exact absurd h (by decide)

lemma joinComma_decomp (l : List Nat) (h : l ≠ []) :
    ∃ x c, joinComma (l.map natChars) = x ++ [c] ∧ c.isDigit = true := by
  induction l with
  | nil => exact absurd rfl h
  | cons n tl ih =>
    cases tl with
    | nil =>
      obtain ⟨x, c, hx, hc⟩ := natChars_decomp n
      exact ⟨x, c, by simpa [joinComma] using hx, hc⟩
    | cons m tl2 =>
      obtain ⟨x, c, hx, hc⟩ := ih (by simp)
      refine ⟨natChars n ++ ',' :: x, c, ?_, hc⟩
      simp only [List.map_cons] at hx ⊢
      simp [joinComma, hx]

lemma joinComma_append (xs ys : List Nat) (hx : xs ≠ []) (hy : ys ≠ []) :
    joinComma ((xs ++ ys).map natChars)
      = joinComma (xs.map natChars) ++ ',' :: joinComma (ys.map natChars) := by
  induction xs with
  | nil => exact absurd rfl hx
  | cons n tl ih =>
    cases tl with
    | nil =>
      cases ys with
      | nil => exact absurd rfl hy
      | cons m tl2 => simp [joinComma]
    | cons m tl2 =>
      have hih := ih (by simp)
      simp only [List.cons_append, List.map_cons, joinComma] at hih ⊢
      rw [List.append_assoc]
      simp only [List.cons_append] at hih ⊢
      rw [← hih]
      rfl

/-! Behaviour of the repair steps on concatenated serialized arrays. -/

lemma substrB_append_marker (x y : List Char) :
    substrB (s2l "][") (x ++ ']' :: '[' :: y) = true := by
  induction x with
  | nil => simp [substrB, leadsWith, s2l]
  | cons c cs ih => simp [substrB, ih]

lemma replaceAdj_append_no_rb : ∀ (x y : List Char), ']' ∉ x →
    replaceAdj (x ++ y) = x ++ replaceAdj y := by
  intro x
  induction x with
  | nil => intro y _; rfl
  | cons c cs ih =>
    intro y hx
    have hc : c ≠ ']' := fun e => hx (by rw [e]; exact List.mem_cons_self _ _)
    have hcs : ']' ∉ cs := fun m => hx (List.mem_cons_of_mem _ m)
    cases h : cs ++ y with
    | nil =>
      obtain ⟨h1, h2⟩ := List.append_eq_nil.mp h
      subst h1; subst h2; rfl
    | cons c2 rest =>
      rw [List.cons_append, h]
      show replaceAdj (c :: c2 :: rest) = _
      rw [replaceAdj, if_neg (by rintro ⟨rfl, -⟩; exact hc rfl)]
      rw [← h, ih y hcs]
      rfl

lemma replaceAdj_marker (y : List Char) :
    replaceAdj (']' :: '[' :: y) = ',' :: replaceAdj y := by
  rw [replaceAdj, if_pos ⟨rfl, rfl⟩]

lemma rstripP_append_pos (p : Char → Bool) (s : List Char) (c : Char) (h : p c = true) :
    rstripP p (s ++ [c]) = rstripP p s := by
  simp [rstripP, List.dropWhile_cons, h]

lemma rstripP_append_neg (p : Char → Bool) (s : List Char) (c : Char) (h : p c = false) :
    rstripP p (s ++ [c]) = s ++ [c] := by
  simp [rstripP, List.dropWhile_cons, h]

lemma endsWithRb_append (s : List Char) (c : Char) :
    endsWithRb (s ++ [c]) = (c == ']') := by
  unfold endsWithRb
  rw [List.reverse_append]
  rfl

lemma digit_not_sqbracket {c : Char} (h : c.isDigit = true) : isSqBracket c = false := by
  obtain ⟨h1, h2, -⟩ := isDigit_ne_specials h
  simp [isSqBracket, h1, h2]

lemma digit_not_comma {c : Char} (h : c.isDigit = true) : isCommaCh c = false := by
  have h8 := (isDigit_ne_specials h).2.2.2.2.2.2.2
  simp [isCommaCh, h8]

lemma repairText_concat (A B : List Nat) (hA : A ≠ []) (hB : B ≠ []) :
    repairText (serNumArray A ++ serNumArray B) = serNumArray (A ++ B) := by
  obtain ⟨xB, cB, hxB, hcB⟩ := joinComma_decomp B hB
  have hnbA := joinComma_no_bracket A
  have hnbB := joinComma_no_bracket B
  have harr : serNumArray A ++ serNumArray B
      = ('[' :: joinComma (A.map natChars))
        ++ ']' :: '[' :: (joinComma (B.map natChars) ++ [']']) := by
    simp [serNumArray]
  unfold repairText
  rw [harr, if_pos (substrB_append_marker _ _)]
  rw [replaceAdj_append_no_rb _ _ (by
    intro hm
    rcases List.mem_cons.mp hm with h | h
    · exact absurd h (by decide)
    · exact hnbA.1 h)]
  rw [replaceAdj_marker, replaceAdj_append_no_rb _ [']'] hnbB.1]
  have hstep : ('[' :: joinComma (A.map natChars))
      ++ ',' :: (joinComma (B.map natChars) ++ replaceAdj [']'])
      = (('[' :: joinComma (A.map natChars) ++ ',' :: xB) ++ [cB]) ++ [']'] := by
    show _ ++ ',' :: (joinComma (B.map natChars) ++ [']']) = _
    rw [hxB]
    simp
  rw [hstep]
  unfold repairStrip
  rw [rstripP_append_pos _ _ _ (by decide),
      rstripP_append_neg _ _ _ (digit_not_sqbracket hcB),
      rstripP_append_neg _ _ _ (digit_not_comma hcB)]
  unfold repairClose
  rw [endsWithRb_append]
  have hne : (cB == ']') = false := by
    have := (isDigit_ne_specials hcB).2.1
    simp [this]
  rw [hne]
  simp only [Bool.false_eq_true, if_false]
  rw [serNumArray, joinComma_append A B hA hB, hxB]
  simp

lemma repairText_concat_nilB (A : List Nat) (hA : A ≠ []) :
    repairText (serNumArray A ++ serNumArray []) = serNumArray A := by
  obtain ⟨xA, cA, hxA, hcA⟩ := joinComma_decomp A hA
  have hnbA := joinComma_no_bracket A
  have harr : serNumArray A ++ serNumArray []
      = ('[' :: joinComma (A.map natChars)) ++ ']' :: '[' :: [']'] := by
    simp [serNumArray, joinComma]
  unfold repairText
  rw [harr, if_pos (substrB_append_marker _ _)]
  rw [replaceAdj_append_no_rb _ _ (by
    intro hm
    rcases List.mem_cons.mp hm with h | h
    · exact absurd h (by decide)
    · exact hnbA.1 h)]
  rw [replaceAdj_marker]
  have hstep : ('[' :: joinComma (A.map natChars)) ++ ',' :: replaceAdj [']']
      = ((('[' :: xA) ++ [cA]) ++ [',']) ++ [']'] := by
    show _ ++ [',', ']'] = _
    rw [hxA]
    simp
  rw [hstep]
  unfold repairStrip
  rw [rstripP_append_pos _ _ _ (by decide),
      rstripP_append_neg _ _ _ (by decide),
      rstripP_append_pos _ _ _ (by decide),
      rstripP_append_neg _ _ _ (digit_not_comma hcA)]
  unfold repairClose
  rw [endsWithRb_append]
  have hne : (cA == ']') = false := by
    have := (isDigit_ne_specials hcA).2.1
    simp [this]
  rw [hne]
  simp only [Bool.false_eq_true, if_false]
  rw [serNumArray, hxA]
  simp

/-- Claim C1 (amended): for JSON arrays of numbers `A` and `B` whose compact
texts are concatenated with no separator, provided `A` is non-empty or `B` is
empty, the Repairer followed by parsing yields exactly the elements of `A`
followed by the elements of `B`, in order. -/
theorem claim_C1_theorem (A B : List Nat) (h : A ≠ [] ∨ B = []) :
    jsonLoads (repairText (serNumArray A ++ serNumArray B))
      = some (.arr ((A ++ B).map .num)) := by
  by_cases hB : B = []
  · subst hB
    by_cases hA : A = []
    · subst hA; rfl
    · rw [repairText_concat_nilB A hA, jsonLoads_serNumArray]
      simp
  · have hA : A ≠ [] := by
      rcases h with h | h
      · exact h
      · exact absurd h hB
    rw [repairText_concat A B hA hB, jsonLoads_serNumArray]

/-- Witness for C1 at `A = [12]`, `B = [3, 45]`. -/
theorem claim_C1_witness :
    (([12] : List Nat) ≠ [] ∨ ([3, 45] : List Nat) = []) ∧
    jsonLoads (repairText (serNumArray [12] ++ serNumArray [3, 45]))
      = some (.arr ([12, 3, 45].map .num)) :=
  ⟨Or.inl (by decide), claim_C1_theorem [12] [3, 45] (Or.inl (by decide))⟩

/-- Counterexample to C1 as stated: for the valid arrays `A = []` and
`B = [1]` the repaired text `[,1]` fails to parse, so the Repairer does not
yield the elements of `A` followed by those of `B`. -/
theorem claim_C1_counterexample :
    jsonLoads (repairText (serNumArray [] ++ serNumArray [1])) = none ∧
    (none : Option JVal) ≠ some (.arr ((([] : List Nat) ++ [1]).map .num)) :=
  ⟨rfl, fun h => Option.noConfusion h⟩

/-- Claim C10: on the well-formed input text consisting of a single empty
JSON array, the trailing-bracket stripping of the Repairer removes the whole
text, the conditional re-append leaves only a closing bracket, and parsing
the result fails. -/
theorem claim_C10_theorem :
    repairText (s2l "[]") = s2l "]" ∧ jsonLoads (repairText (s2l "[]")) = none :=
  ⟨rfl, rfl⟩

/-! The Flattener (`flatten_nested_data`, identical in `strava_activities.py`
lines 126-149 and `strava_activities_json_to_parquet.py` lines 29-52). -/

/-- Join rendered fragments with a comma and a space, as Python `str` does
for list and dict displays. -/
def joinCommaSp : List (List Char) → List Char
  | [] => []
  | [x] => x
  | x :: xs => x ++ ',' :: ' ' :: joinCommaSp xs

mutual

/-- Python `str(value)` rendering of a decoded JSON value (strings displayed
between single quotes, written via their code point 39). -/
def pyStr : JVal → List Char
  | .num n => natChars n
  | .str s => Char.ofNat 39 :: s ++ [Char.ofNat 39]
  | .bool true => s2l "True"
  | .bool false => s2l "False"
  | .null => s2l "None"
  | .arr l => '[' :: joinCommaSp (pyStrList l) ++ [']']
  | .obj kvs => '{' :: joinCommaSp (pyStrFields kvs) ++ ['}']

/-- Renderings of the elements of a list value. -/
def pyStrList : List JVal → List (List Char)
  | [] => []
  | v :: rest => pyStr v :: pyStrList rest

/-- Renderings of the entries of a dict value. -/
def pyStrFields : List (List Char × JVal) → List (List Char)
  | [] => []
  | kv :: rest =>
    (Char.ofNat 39 :: kv.1 ++ Char.ofNat 39 :: ':' :: ' ' :: pyStr kv.2) :: pyStrFields rest

end

/-- Python dict assignment `m[k] = v`: overwrite in place when the key is
already present, append a new entry otherwise. -/
def upsert (m : List (List Char × JVal)) (k : List Char) (v : JVal) :
    List (List Char × JVal) :=
  if m.any (fun p => decide (p.1 = k)) then
    m.map (fun p => if p.1 = k then (k, v) else p)
  else m ++ [(k, v)]

/-- Treatment of one top-level entry by the Flattener loop body. -/
def flattenStep (acc : List (List Char × JVal)) (kv : List Char × JVal) :
    List (List Char × JVal) :=
  match kv.2 with
  | .obj kvs => kvs.foldl (fun acc2 nkv => upsert acc2 (kv.1 ++ '_' :: nkv.1) nkv.2) acc
  | .arr l => upsert acc kv.1 (if l.isEmpty then .null else .str (pyStr (.arr l)))
  | v => upsert acc kv.1 v

/-- The Flattener: fold the per-entry treatment over the record in key order,
building a Python dict. -/
def flatten_nested_data (data : List (List Char × JVal)) : List (List Char × JVal) :=
  data.foldl flattenStep []

/-- Emissions of one top-level entry as the specification words them: a
mapping value `v` emits `k_<nestedKey>` for every nested key (one level only,
deeper nesting inside preserved as-is); a sequence value emits its string
rendering, or null when empty; any other value is passed through unchanged. -/
def flattenEmit (kv : List Char × JVal) : List (List Char × JVal) :=
  match kv.2 with
  | .obj kvs => kvs.map (fun nkv => (kv.1 ++ '_' :: nkv.1, nkv.2))
  | .arr l => [(kv.1, if l.isEmpty then .null else .str (pyStr (.arr l)))]
  | v => [(kv.1, v)]

/-- Specification-side Flattener output: the emissions of all entries in
traversal order, combined left to right with last-wins dict assignment. -/
def flattenSpecPairs (data : List (List Char × JVal)) : List (List Char × JVal) :=
  data.flatMap flattenEmit

lemma flattenStep_emit (acc : List (List Char × JVal)) (kv : List Char × JVal) :
    flattenStep acc kv = (flattenEmit kv).foldl (fun a p => upsert a p.1 p.2) acc := by
  rcases kv with ⟨k, v⟩
  cases v <;> simp [flattenStep, flattenEmit, List.foldl_map]

lemma flatten_foldl (data : List (List Char × JVal)) :
    ∀ acc, data.foldl flattenStep acc
      = (flattenSpecPairs data).foldl (fun a p => upsert a p.1 p.2) acc := by
  induction data with
  | nil => intro acc; rfl
  | cons kv rest ih =>
    intro acc
    show rest.foldl flattenStep (flattenStep acc kv) = _
    rw [ih]
    unfold flattenSpecPairs
    rw [List.flatMap_cons, List.foldl_append, flattenStep_emit]

/-- Claim C5: the Flattener emits `k_<nestedKey>` columns for each top-level
mapping value (one level only, deeper nesting preserved), maps each
sequence-valued key to its string rendering or to null when empty, and passes
every other value through unchanged, later emissions overwriting earlier ones
dict-style; in particular the record `a` maps-to `x` maps-to 1, `y` maps-to 2,
with `b` maps-to 3, flattens to `a_x` 1, `a_y` 2, `b` 3. -/
theorem claim_C5_theorem :
    (∀ data : List (List Char × JVal),
      flatten_nested_data data
        = (flattenSpecPairs data).foldl (fun a p => upsert a p.1 p.2) []) ∧
    flatten_nested_data
        [(s2l "a", .obj [(s2l "x", .num 1), (s2l "y", .num 2)]), (s2l "b", .num 3)]
      = [(s2l "a_x", .num 1), (s2l "a_y", .num 2), (s2l "b", .num 3)] :=
  ⟨fun data => flatten_foldl data [], rfl⟩

/-! Calendar arithmetic.  Dates are day indices counted from 2001-01-01,
which was a Monday, so the day of week (Monday = 0) is the index mod 7. -/

/-- Gregorian leap-year rule. -/
def isLeap (y : Nat) : Bool := (y % 4 = 0 && y % 100 ≠ 0) || y % 400 = 0

/-- Length in days of a calendar year. -/
def yearLen (y : Nat) : Nat := if isLeap y then 366 else 365

/-- Length in days of a calendar month. -/
def monthLen (y m : Nat) : Nat :=
  if m = 2 then (if isLeap y then 29 else 28)
  else if m = 4 ∨ m = 6 ∨ m = 9 ∨ m = 11 then 30 else 31

/-- Days between the epoch and the start of year `y`. -/
def daysBeforeYear (y : Nat) : Nat :=
  (List.range' 2001 (y - 2001)).foldl (fun a yy => a + yearLen yy) 0

/-- Days between the start of year `y` and the start of its month `m`. -/
def daysBeforeMonth (y m : Nat) : Nat :=
  (List.range' 1 (m - 1)).foldl (fun a mm => a + monthLen y mm) 0

/-- Day index of the calendar date `y-m-d`. -/
def dateToDay (y m d : Nat) : Nat := daysBeforeYear y + daysBeforeMonth y m + (d - 1)

/-- Calendar year and zero-based day of year of a day index, by peeling whole
years off the epoch; the fuel argument (`d` itself suffices) makes the
recursion structural. -/
def yearDoyAux : Nat → Nat → Nat → Nat × Nat
  | 0, y, d => (y, d)
  | f + 1, y, d => if d < yearLen y then (y, d) else yearDoyAux f (y + 1) (d - yearLen y)

/-- Calendar year and zero-based day of year of a day index. -/
def civilOfDay (d : Nat) : Nat × Nat := yearDoyAux d 2001 d

/-- Calendar year of a day index (pandas `dt.year`). -/
def yearOfDay (d : Nat) : Nat := (civilOfDay d).1

/-- Day of week of a day index, Monday = 0 (pandas `dt.day_of_week`). -/
def dowOfDay (d : Nat) : Nat := d % 7

/-- ISO week number of a day index (pandas `dt.isocalendar().week`): the week
number of the Thursday of the same Monday-based week, counted inside that
Thursday's calendar year. -/
def isoWeekOfDay (d : Nat) : Nat := (civilOfDay (d - d % 7 + 3)).2 / 7 + 1

/-! Cells and tables of the conversion pipeline. -/

/-- Cell of a DataFrame column: a decoded JSON value as loaded, a numeric
value produced by `to_numeric`, a timestamp produced by `to_datetime`
(stored as a day index), or a null marker (NaN/NaT/None). -/
inductive Cell : Type where
  | jval (v : JVal)
  | numv (q : ℚ)
  | tsv (d : Nat)
  | null

/-- A DataFrame: ordered columns, each a name paired with its cells, rows
aligned by position. -/
abbrev Table : Type := List (List Char × List Cell)

/-- Model of `pd.to_numeric(val, errors='coerce')` on one cell: numbers and
numeric strings convert, booleans become 0 or 1, timestamps keep their
underlying count, everything else becomes null. -/
def toNumericCell : Cell → Cell
  | .jval (.num n) => .numv n
  | .jval (.str s) => if s ≠ [] ∧ s.all Char.isDigit then .numv (strToNat s) else .null
  | .jval (.bool true) => .numv 1
  | .jval (.bool false) => .numv 0
  | .numv q => .numv q
  | .tsv d => .numv d
  | _ => .null

/-- Parse an ISO `YYYY-MM-DD` date (a possible time-of-day suffix is ignored,
as the dashboard keeps only the date); the model covers years from 2001. -/
def parseIsoDate (s : List Char) : Option Nat :=
  let ys := s.takeWhile Char.isDigit
  let r1 := s.dropWhile Char.isDigit
  match r1 with
  | '-' :: r2 =>
    let ms := r2.takeWhile Char.isDigit
    let r3 := r2.dropWhile Char.isDigit
    match r3 with
    | '-' :: r4 =>
      let ds := r4.takeWhile Char.isDigit
      let y := strToNat ys
      let m := strToNat ms
      let d := strToNat ds
      if ys ≠ [] ∧ ms ≠ [] ∧ ds ≠ [] ∧ 2001 ≤ y ∧ 1 ≤ m ∧ m ≤ 12 ∧ 1 ≤ d ∧
          d ≤ monthLen y m
      then some (dateToDay y m d) else none
    | _ => none
  | _ => none

/-- Model of `pd.to_datetime(val, errors='coerce')` on one cell: date strings
parse to timestamps, everything unparseable becomes null. -/
def toDatetimeCell : Cell → Cell
  | .jval (.str s) =>
    match parseIsoDate s with
    | some d => .tsv d
    | none => .null
  | .jval (.num n) => .tsv n
  | .tsv d => .tsv d
  | _ => .null

/-- Lower-casing of a column name, as in `col.lower()`. -/
def lowerStr (s : List Char) : List Char := s.map Char.toLower

/-- Date-column heuristic (`strava_activities_json_to_parquet.py` line 105):
the lower-cased column name contains "date". -/
def isDateCol (name : List Char) : Bool := substrB (s2l "date") (lowerStr name)

/-- The fixed catalog of numeric columns (lines 113-119). -/
def numericColumns : List (List Char) :=
  [s2l "distance", s2l "moving_time", s2l "elapsed_time", s2l "total_elevation_gain",
   s2l "average_speed", s2l "max_speed", s2l "average_watts", s2l "kilojoules",
   s2l "average_heartrate", s2l "max_heartrate", s2l "elev_high", s2l "elev_low",
   s2l "kudos_count", s2l "comment_count", s2l "athlete_count", s2l "photo_count",
   s2l "achievement_count", s2l "pr_count", s2l "total_photo_count"]

/-- Datetime pass of the Type Coercer (lines 104-110): element-wise
conversion of every date-named column. -/
def coerceDates (t : Table) : Table :=
  t.map (fun col =>
    if isDateCol col.1 = true then (col.1, col.2.map toDatetimeCell) else col)

/-- Numeric pass of the Type Coercer (lines 121-123): element-wise conversion
of every column in the numeric catalog. -/
def coerceNums (t : Table) : Table :=
  t.map (fun col =>
    if col.1 ∈ numericColumns then (col.1, col.2.map toNumericCell) else col)

/-- The Type Coercer as run by `convert_json_to_parquet`: the datetime pass
followed by the numeric pass. -/
def coerceTable (t : Table) : Table := coerceNums (coerceDates t)

/-- Cell-level conversion applied to a column of the given name. -/
def cellConvFor (name : List Char) (cl : Cell) : Cell :=
  (if name ∈ numericColumns then toNumericCell else id)
    ((if isDateCol name = true then toDatetimeCell else id) cl)

lemma coerceTable_eq (t : Table) :
    coerceTable t = t.map (fun col => (col.1, col.2.map (cellConvFor col.1))) := by
  unfold coerceTable coerceDates coerceNums
  rw [List.map_map]
  apply List.map_congr_left
  intro col _
  rcases col with ⟨name, cells⟩
  by_cases hd : isDateCol name = true <;> by_cases hn : name ∈ numericColumns
  · simp [Function.comp, cellConvFor, hd, hn, List.map_map]
  · simp [Function.comp, cellConvFor, hd, hn, List.map_map]
  · simp [Function.comp, cellConvFor, hd, hn, List.map_map]
  · have hmap : cells.map (cellConvFor name) = cells :=
      List.map_id'' (fun cl => by simp [cellConvFor, hd, hn]) cells
    simp [hd, hn, hmap]

/-- Claim C6: type coercion preserves the row count exactly, touches only
catalog and date-named columns (whose cells it maps element-wise, one
unparseable value turning into a null in that cell alone), and leaves every
other column entirely unchanged. -/
theorem claim_C6_theorem (t : Table) :
    ((coerceTable t).map Prod.fst = t.map Prod.fst) ∧
    (∀ i : Nat, ((coerceTable t)[i]?).map (fun col => col.2.length)
        = (t[i]?).map (fun col => col.2.length)) ∧
    (∀ i : Nat, ∀ col, t[i]? = some col → isDateCol col.1 = false →
        col.1 ∉ numericColumns → (coerceTable t)[i]? = some col) ∧
    (∀ i j : Nat, ∀ col, t[i]? = some col →
        ((coerceTable t)[i]?).bind (fun c2 => c2.2[j]?)
          = (col.2[j]?).map (cellConvFor col.1)) := by
  refine ⟨?_, ?_, ?_, ?_⟩
  · rw [coerceTable_eq, List.map_map]
    apply List.map_congr_left
    intro col _
    rfl
  · intro i
    rw [coerceTable_eq, List.getElem?_map]
    cases h : t[i]? with
    | none => simp
    | some col => simp
  · intro i col hcol hd hn
    rw [coerceTable_eq, List.getElem?_map, hcol]
    rcases col with ⟨name, cells⟩
    have hconv : ∀ cl, cellConvFor name cl = cl := by
      intro cl
      simp [cellConvFor, hd, hn]
    have hmap : cells.map (cellConvFor name) = cells := List.map_id'' hconv cells
    simp [hmap]
  · intro i j col hcol
    rw [coerceTable_eq, List.getElem?_map, hcol]
    simp [List.getElem?_map]

/-- Concrete table for the C6 witness: a numeric column with one unparseable
cell, and a column outside both catalogs. -/
def c6ExTable : Table :=
  [(s2l "distance", [.jval (.str (s2l "12")), .jval (.str (s2l "xy"))]),
   (s2l "name", [.jval (.str (s2l "run")), .null])]

/-- Witness for C6: on `c6ExTable` the untouched column survives as is, and
the bad cell of the numeric column nulls out alone. -/
theorem claim_C6_witness :
    (coerceTable c6ExTable)[1]? = some (s2l "name", [.jval (.str (s2l "run")), .null]) ∧
    ((coerceTable c6ExTable)[0]?).bind (fun c2 => c2.2[1]?) = some .null ∧
    ((coerceTable c6ExTable)[0]?).bind (fun c2 => c2.2[0]?) = some (.numv 12) := by
  refine ⟨(claim_C6_theorem c6ExTable).2.2.1 1 _ rfl (by rfl) (by decide), ?_, ?_⟩
  · rw [(claim_C6_theorem c6ExTable).2.2.2 0 1
      (s2l "distance", [.jval (.str (s2l "12")), .jval (.str (s2l "xy"))]) rfl]
    rfl
  · rw [(claim_C6_theorem c6ExTable).2.2.2 0 0
      (s2l "distance", [.jval (.str (s2l "12")), .jval (.str (s2l "xy"))]) rfl]
    rfl

/-! The Columnar Store Writer and the conversion entrypoint, modelled as an
effect trace plus a small file-system semantics. -/

/-- File-system operations issued by the scripts.  A `toParquet` with
`complete = false` models a serialization that raises partway, leaving a
fragment at the target path. -/
inductive FsOp : Type where
  | mkdir (path : List Char)
  | toParquet (path : List Char) (content : Table) (complete : Bool)
  | rename (src dst : List Char)

/-- State of a file after a run: a completely written table or a fragment. -/
inductive FileState : Type where
  | whole (content : Table)
  | halfWritten

/-- Recognize a rename operation. -/
def isRename : FsOp → Bool
  | .rename _ _ => true
  | _ => false

/-- Apply one operation to the file system (a map from path to file state,
most recent binding first). -/
def applyOp (fs : List (List Char × FileState)) : FsOp → List (List Char × FileState)
  | .mkdir _ => fs
  | .toParquet p t c => (p, if c then .whole t else .halfWritten) :: fs
  | .rename src dst =>
    match fs.lookup src with
    | some st => (dst, st) :: (fs.filter (fun e => decide (e.1 ≠ src)))
    | none => fs

/-- Run a trace from an empty file system. -/
def runOps (ops : List FsOp) : List (List Char × FileState) :=
  ops.foldl applyOp []

/-- Final state of the file at `p` after running a trace. -/
def finalState (ops : List FsOp) (p : List Char) : Option FileState :=
  (runOps ops).lookup p

/-- Error kinds surfaced by the scripts. -/
inductive PyErr : Type where
  | jsonError
  | typeError
  | keyError (col : List Char)
  | persistError

/-- Column names of a list of flattened records: the union of their keys in
first-seen order, as `pd.DataFrame` builds them. -/
def unionKeys (recs : List (List (List Char × JVal))) : List (List Char) :=
  recs.foldl (fun acc r =>
    r.foldl (fun a kv => if kv.1 ∈ a then a else a ++ [kv.1]) acc) []

/-- Cell of a record under a column: the value when the key is present
(a JSON null loading as a null cell), a null marker when absent. -/
def recCell (r : List (List Char × JVal)) (k : List Char) : Cell :=
  match r.lookup k with
  | some .null => .null
  | some v => .jval v
  | none => .null

/-- Model of `pd.DataFrame(records)`: one column per union key, one row per
record, in order. -/
def buildDf (recs : List (List (List Char × JVal))) : Table :=
  (unionKeys recs).map (fun k => (k, recs.map (fun r => recCell r k)))

/-- Fixed name of the latest-snapshot Parquet file inside the backup
directory (`strava_activities.py` line 166). -/
def parquetPath (dir : List Char) : List Char :=
  dir ++ '/' :: s2l "strava_activities_latest.parquet"

/-- The Columnar Store Writer `create_parquet_file` (`strava_activities.py`
lines 152-216): make the backup directory, flatten and coerce the records,
and serialize the table directly to the destination path with
`df.to_parquet`; an exception is logged and re-raised.  The boolean
`serFail` says whether the serialization raises partway. -/
def create_parquet_file (serFail : Bool)
    (activities : List (List (List Char × JVal))) (dir : List Char) :
    List FsOp × Except PyErr (List Char) :=
  if serFail then
    ([.mkdir dir,
      .toParquet (parquetPath dir)
        (coerceTable (buildDf (activities.map flatten_nested_data))) false],
     .error .persistError)
  else
    ([.mkdir dir,
      .toParquet (parquetPath dir)
        (coerceTable (buildDf (activities.map flatten_nested_data))) true],
     .ok (parquetPath dir))

/-- Claim C3 (amended): the writer propagates any serialization failure to
the caller, but it serializes directly at the destination path and never
uses a temporary path with a rename, so a failed run leaves a partial file
at the authoritative path (and a successful run the complete table). -/
theorem claim_C3_theorem (serFail : Bool)
    (activities : List (List (List Char × JVal))) (dir : List Char) :
    ((create_parquet_file serFail activities dir).2 = .error .persistError
        ↔ serFail = true) ∧
    ((create_parquet_file serFail activities dir).1.any isRename = false) ∧
    (serFail = true →
      finalState (create_parquet_file serFail activities dir).1 (parquetPath dir)
        = some .halfWritten) ∧
    (serFail = false →
      finalState (create_parquet_file serFail activities dir).1 (parquetPath dir)
        = some (.whole (coerceTable (buildDf (activities.map flatten_nested_data))))) := by
  cases serFail with
  | false =>
    refine ⟨⟨fun h => ?_, fun h => by simp at h⟩, rfl, fun h => by simp at h, fun _ => ?_⟩
    · exact absurd h (by simp [create_parquet_file])
    · simp [create_parquet_file, finalState, runOps, applyOp, List.lookup]
  | true =>
    refine ⟨⟨fun _ => rfl, fun _ => rfl⟩, rfl, fun _ => ?_, fun h => by simp at h⟩
    simp [create_parquet_file, finalState, runOps, applyOp, List.lookup]

/-- Witness for C3 at a failing run over an empty record list. -/
theorem claim_C3_witness :
    (create_parquet_file true [] (s2l "data")).2 = .error .persistError ∧
    finalState (create_parquet_file true [] (s2l "data")).1 (parquetPath (s2l "data"))
      = some .halfWritten :=
  ⟨(claim_C3_theorem true [] (s2l "data")).1.mpr rfl,
   (claim_C3_theorem true [] (s2l "data")).2.2.1 rfl⟩

/-- Counterexample to C3 as stated: the writer does not write to a temporary
path and rename into place; a failing run leaves a partial file at the
authoritative destination. -/
theorem claim_C3_counterexample :
    (create_parquet_file true [] (s2l "data")).1.any isRename = false ∧
    finalState (create_parquet_file true [] (s2l "data")).1 (parquetPath (s2l "data"))
      = some .halfWritten :=
  ⟨rfl, rfl⟩

/-- Interpret a parsed dump as a list of records: the value must be an array
of objects (anything else makes the flattening loop raise). -/
def asRecs : JVal → Option (List (List (List Char × JVal)))
  | .arr items =>
    items.foldr (fun it acc =>
      match it, acc with
      | .obj fields, some l => some (fields :: l)
      | _, _ => none) (some [])
  | _ => none

/-- The conversion entrypoint `convert_json_to_parquet`
(`strava_activities_json_to_parquet.py` lines 54-138): repair and parse the
dump, flatten every record, build and coerce the DataFrame, write the
Parquet file, then log summary statistics that index the `start_date` and
`type` columns — a missing column there raises `KeyError` after the file was
already written; the exception is logged and re-raised to the caller.
The write is modelled as always completing (`complete = true`), the claim
under scrutiny being the post-write failure. -/
def convert_json_to_parquet (content outPath : List Char) :
    List FsOp × Except PyErr (List Char) :=
  match jsonLoads (repairText content) with
  | none => ([], .error .jsonError)
  | some v =>
    match asRecs v with
    | none => ([], .error .typeError)
    | some recs =>
      if s2l "start_date"
          ∈ (coerceTable (buildDf (recs.map flatten_nested_data))).map Prod.fst then
        if s2l "type"
            ∈ (coerceTable (buildDf (recs.map flatten_nested_data))).map Prod.fst then
          ([.toParquet outPath (coerceTable (buildDf (recs.map flatten_nested_data))) true],
           .ok outPath)
        else
          ([.toParquet outPath (coerceTable (buildDf (recs.map flatten_nested_data))) true],
           .error (.keyError (s2l "type")))
      else
        ([.toParquet outPath (coerceTable (buildDf (recs.map flatten_nested_data))) true],
         .error (.keyError (s2l "start_date")))

/-- The CLI `main` (lines 140-160): exit code 0 on success, 1 when the
conversion raises. -/
def mainExit (content outPath : List Char) : Nat :=
  match (convert_json_to_parquet content outPath).2 with
  | .ok _ => 0
  | .error _ => 1

/-- Claim C9: on a valid input whose repaired record list yields no
`start_date` column (or no `type` column), the conversion entrypoint writes
the complete Parquet output file and still raises, so the CLI exits with
code 1 even though the durable artifact was fully written. -/
theorem claim_C9_theorem (content outPath : List Char) (v : JVal)
    (recs : List (List (List Char × JVal)))
    (hp : jsonLoads (repairText content) = some v)
    (hr : asRecs v = some recs)
    (hmiss :
      s2l "start_date"
          ∉ (coerceTable (buildDf (recs.map flatten_nested_data))).map Prod.fst ∨
      s2l "type"
          ∉ (coerceTable (buildDf (recs.map flatten_nested_data))).map Prod.fst) :
    (convert_json_to_parquet content outPath).1
      = [.toParquet outPath (coerceTable (buildDf (recs.map flatten_nested_data))) true] ∧
    (∃ c, (convert_json_to_parquet content outPath).2 = .error (.keyError c)) ∧
    mainExit content outPath = 1 := by
  unfold mainExit convert_json_to_parquet
  simp only [hp, hr]
  by_cases hs : s2l "start_date"
      ∈ (coerceTable (buildDf (recs.map flatten_nested_data))).map Prod.fst
  · have ht : s2l "type"
        ∉ (coerceTable (buildDf (recs.map flatten_nested_data))).map Prod.fst := by
      rcases hmiss with h | h
      · exact absurd hs h
      · exact h
    rw [if_pos hs, if_neg ht]
    exact ⟨rfl, ⟨s2l "type", rfl⟩, rfl⟩
  · rw [if_neg hs]
    exact ⟨rfl, ⟨s2l "start_date", rfl⟩, rfl⟩

/-- Text of the single-record dump used by the C9 witness: one object with
the single key `a`. -/
def c9Content : List Char := ['[', '{', '"', 'a', '"', ':', '1', '}', ']']

/-- Witness for C9: the dump `c9Content` parses to one record without a
`start_date` column; the file is written and the exit code is 1. -/
theorem claim_C9_witness :
    (convert_json_to_parquet c9Content (s2l "out.parquet")).1
      = [.toParquet (s2l "out.parquet")
          (coerceTable (buildDf ([[(s2l "a", .num 1)]].map flatten_nested_data))) true] ∧
    (∃ c, (convert_json_to_parquet c9Content (s2l "out.parquet")).2
        = .error (.keyError c)) ∧
    mainExit c9Content (s2l "out.parquet") = 1 :=
  claim_C9_theorem c9Content (s2l "out.parquet")
    (.arr [.obj [(s2l "a", .num 1)]]) [[(s2l "a", .num 1)]]
    rfl rfl (Or.inl (by decide))

/-! The dashboard data pipeline (`strava_dashboard.py`). -/

/-- Conversion factor from meters to miles (line 72). -/
def milesPerMeter : ℚ := 621371 / 1000000000

/-- A loaded activity row after `load_strava_data`: calendar date (day
index), miles, and activity type. -/
structure Act : Type where
  date : Nat
  miles : ℚ
  type : List Char
deriving DecidableEq

/-- A raw row of the Parquet table as the dashboard reads it: possibly-null
distance (meters), start date (truncated to a day index) and activity type. -/
structure RawAct : Type where
  distance : Option ℚ
  start_date : Option Nat
  type : Option (List Char)
deriving DecidableEq

/-- Treatment of one raw row by `load_strava_data` (lines 71-79): miles is
distance times the fixed factor (null when distance is null), the date is
the day part of the start timestamp; rows with null miles, date or type and
rows with non-positive miles are dropped. -/
def loadRow (r : RawAct) : Option Act :=
  match r.distance, r.start_date, r.type with
  | some dist, some dt, some ty =>
    if 0 < dist * milesPerMeter then some ⟨dt, dist * milesPerMeter, ty⟩ else none
  | _, _, _ => none

/-- `load_strava_data` (lines 57-87) applied to an in-memory table. -/
def load_strava_data (rows : List RawAct) : List Act :=
  rows.filterMap loadRow

/-- The dashboard's activity-type filter (lines 104-107); `none` models the
"All" selection. -/
def typeFiltered (atype : Option (List Char)) (df : List Act) : List Act :=
  match atype with
  | none => df
  | some t => df.filter (fun r => r.type == t)

/-- Distinct activity dates in ascending order: the index of
`groupby('date')` followed by `sort_values('date')` (lines 110-113). -/
def groupDates (rows : List Act) : List Nat :=
  List.insertionSort (fun a b => a ≤ b) (rows.map Act.date).dedup

/-- Total miles on one date among the given rows. -/
def sumMilesOn (rows : List Act) (d : Nat) : ℚ :=
  ((rows.filter (fun r => r.date == d)).map Act.miles).sum

/-- The grouped daily frame: one (date, total miles) pair per distinct
date, ascending (lines 110-114). -/
def dailyGrouped (rows : List Act) : List (Nat × ℚ) :=
  (groupDates rows).map (fun d => (d, sumMilesOn rows d))

/-- Earliest date of the grouped frame (`daily_miles['date'].min()`,
line 119). -/
def minGroupDate (rows : List Act) : Nat :=
  (((dailyGrouped rows).map Prod.fst).min?).getD 0

/-- The contiguous date axis from `start` to `today` inclusive
(`pd.date_range`, lines 121-125); empty when `start` is after `today`. -/
def dateAxis (start today : Nat) : List Nat :=
  List.range' start (today + 1 - start)

/-- Trailing mean with window `k` and minimum period 1
(`rolling(window=k, min_periods=1).mean()`). -/
def rollingMean (k : Nat) (xs : List ℚ) : List ℚ :=
  (List.range xs.length).map (fun i =>
    ((xs.take (i + 1)).drop (i + 1 - k)).sum
      / ((xs.take (i + 1)).drop (i + 1 - k)).length)

/-- A row of the produced daily series. -/
structure DayRow : Type where
  date : Nat
  miles : ℚ
  avg7 : ℚ
  avg30 : ℚ
deriving DecidableEq

/-- Positional alignment of the (date, miles) series with the two average
columns. -/
def zipRows : List (Nat × ℚ) → List ℚ → List ℚ → List DayRow
  | b :: bs, x :: xs, y :: ys => ⟨b.1, b.2, x, y⟩ :: zipRows bs xs ys
  | _, _, _ => []

/-- Annotate the (date, miles) series with the 7-day and 30-day trailing
averages over the miles column (lines 137-139). -/
def addAverages (base : List (Nat × ℚ)) : List DayRow :=
  zipRows base (rollingMean 7 (base.map Prod.snd)) (rollingMean 30 (base.map Prod.snd))

/-- `process_daily_miles` (lines 89-142): an empty input frame returns an
empty frame; otherwise the rows are filtered by activity type and grouped by
date; a non-empty grouped frame is left-joined onto the contiguous axis from
its earliest date to `today` with zeros for missing dates, an empty one is
replaced by the single row (`today`, 0); finally the trailing averages are
added.  `today` stands for the wall clock `pd.Timestamp.now().normalize()`. -/
def process_daily_miles (today : Nat) (df : List Act) (atype : Option (List Char)) :
    List DayRow :=
  if df = [] then []
  else if dailyGrouped (typeFiltered atype df) = [] then
    addAverages [(today, 0)]
  else
    addAverages ((dateAxis (minGroupDate (typeFiltered atype df)) today).map
      (fun d => (d, match (dailyGrouped (typeFiltered atype df)).lookup d with
                    | some v => v
                    | none => 0)))

/-- Claim C2 (amended): when the input table is non-empty but zero rows
survive the activity-type filter, the Daily Aggregator does not raise and
returns exactly one entry for the current day with 0 miles; when the input
table is already empty, however, it returns an empty series. -/
theorem claim_C2_theorem (today : Nat) (df : List Act) (atype : Option (List Char)) :
    (process_daily_miles today [] atype = []) ∧
    (df ≠ [] → typeFiltered atype df = [] →
      process_daily_miles today df atype = [⟨today, 0, 0, 0⟩]) := by
  constructor
  · rfl
  · intro hdf hfil
    unfold process_daily_miles
    rw [if_neg hdf, hfil]
    have hg : dailyGrouped ([] : List Act) = [] := rfl
    rw [if_pos hg]
    have hr1 : List.range 1 = [0] := rfl
    have h7 : rollingMean 7 [(0 : ℚ)] = [0] := by
      simp [rollingMean, hr1]
    have h30 : rollingMean 30 [(0 : ℚ)] = [0] := by
      simp [rollingMean, hr1]
    simp [addAverages, h7, h30, zipRows]

/-- Witness for C2: a one-row table filtered by a type that matches nothing
produces the single zero row for today. -/
theorem claim_C2_witness :
    process_daily_miles 5 [⟨3, 1, s2l "Run"⟩] (some (s2l "Ride")) = [⟨5, 0, 0, 0⟩] :=
  (claim_C2_theorem 5 [⟨3, 1, s2l "Run"⟩] (some (s2l "Ride"))).2 (by decide) (by decide)

/-- Counterexample to C2 as stated: on an already-empty input table the
Daily Aggregator returns an empty series, not a single zero entry for the
current day. -/
theorem claim_C2_counterexample :
    process_daily_miles 0 [] none = [] ∧
    process_daily_miles 0 [] none ≠ [⟨0, 0, 0, 0⟩] :=
  ⟨rfl, by decide⟩

/-! Moving averages: the C7 lemmas. -/

/-- The window of the most recent `min (i+1) k` values ending at index `i`,
as the specification words it. -/
def recentWindow (xs : List ℚ) (i k : Nat) : List ℚ :=
  (xs.take (i + 1)).drop ((i + 1) - min (i + 1) k)

lemma rollingMean_length (k : Nat) (xs : List ℚ) :
    (rollingMean k xs).length = xs.length := by
  simp [rollingMean]

lemma recentWindow_eq (xs : List ℚ) (i k : Nat) (_hk : 0 < k) :
    recentWindow xs i k = (xs.take (i + 1)).drop (i + 1 - k) := by
  unfold recentWindow
  congr 1
  omega

lemma recentWindow_length (xs : List ℚ) (i k : Nat) (hk : 0 < k) (hi : i < xs.length) :
    (recentWindow xs i k).length = min (i + 1) k := by
  rw [recentWindow_eq xs i k hk]
  simp only [List.length_drop, List.length_take]
  omega

lemma rollingMean_getElem (k : Nat) (xs : List ℚ) (i : Nat) (hi : i < xs.length) :
    (rollingMean k xs)[i]? = some
      (((xs.take (i + 1)).drop (i + 1 - k)).sum
        / (((xs.take (i + 1)).drop (i + 1 - k)).length : ℚ)) := by
  unfold rollingMean
  rw [List.getElem?_map, List.getElem?_range hi]
  rfl

lemma rollingMean_head (k : Nat) (hk : 0 < k) (xs : List ℚ) :
    (rollingMean k xs).head? = xs.head? := by
  cases xs with
  | nil => rfl
  | cons x rest =>
    unfold rollingMean
    rw [List.length_cons, List.range_succ_eq_map]
    have h1 : 0 + 1 - k = 0 := by omega
    simp [h1]

lemma zipRows_proj : ∀ (bs : List (Nat × ℚ)) (xs ys : List ℚ),
    xs.length = bs.length → ys.length = bs.length →
    (zipRows bs xs ys).map DayRow.date = bs.map Prod.fst ∧
    (zipRows bs xs ys).map DayRow.miles = bs.map Prod.snd ∧
    (zipRows bs xs ys).map DayRow.avg7 = xs ∧
    (zipRows bs xs ys).map DayRow.avg30 = ys := by
  intro bs
  induction bs with
  | nil =>
    intro xs ys hx hy
    have hx0 : xs = [] := List.length_eq_zero.mp (by simpa using hx)
    have hy0 : ys = [] := List.length_eq_zero.mp (by simpa using hy)
    subst hx0; subst hy0
    simp [zipRows]
  | cons b bs ih =>
    intro xs ys hx hy
    cases xs with
    | nil => simp at hx
    | cons x xs2 =>
      cases ys with
      | nil => simp at hy
      | cons y ys2 =>
        have h := ih xs2 ys2 (by simpa using hx) (by simpa using hy)
        simp [zipRows, h.1, h.2.1, h.2.2.1, h.2.2.2]

lemma addAverages_proj (base : List (Nat × ℚ)) :
    (addAverages base).map DayRow.date = base.map Prod.fst ∧
    (addAverages base).map DayRow.miles = base.map Prod.snd ∧
    (addAverages base).map DayRow.avg7 = rollingMean 7 (base.map Prod.snd) ∧
    (addAverages base).map DayRow.avg30 = rollingMean 30 (base.map Prod.snd) := by
  unfold addAverages
  exact zipRows_proj base _ _
    (by rw [rollingMean_length, List.length_map])
    (by rw [rollingMean_length, List.length_map])

/-- Claim C7: on every daily series the Aggregator annotates miles with
trailing means of windows 7 and 30 where element `i` of a `k`-window average
is the mean of the most recent `min (i+1, k)` values; in particular the
first element's 7-day average equals that element's own miles value. -/
theorem claim_C7_theorem :
    (∀ (k : Nat) (xs : List ℚ) (i : Nat), 0 < k → i < xs.length →
      (recentWindow xs i k).length = min (i + 1) k ∧
      (rollingMean k xs)[i]? = some ((recentWindow xs i k).sum / ((min (i + 1) k : Nat) : ℚ))) ∧
    (∀ (today : Nat) (df : List Act) (t : Option (List Char)),
      (process_daily_miles today df t).map DayRow.avg7
          = rollingMean 7 ((process_daily_miles today df t).map DayRow.miles) ∧
      (process_daily_miles today df t).map DayRow.avg30
          = rollingMean 30 ((process_daily_miles today df t).map DayRow.miles) ∧
      ((process_daily_miles today df t).map DayRow.avg7).head?
          = ((process_daily_miles today df t).map DayRow.miles).head?) := by
  constructor
  · intro k xs i hk hi
    refine ⟨recentWindow_length xs i k hk hi, ?_⟩
    rw [rollingMean_getElem k xs i hi, recentWindow_eq xs i k hk,
      ← recentWindow_eq xs i k hk, recentWindow_length xs i k hk hi]
  · intro today df t
    unfold process_daily_miles
    split
    · simp [rollingMean]
    · split
      · obtain ⟨-, hm, h7, -⟩ := addAverages_proj [(today, 0)]
        rw [h7, hm, rollingMean_head 7 (by omega)]
        exact ⟨rfl, rfl, rfl⟩
      · obtain ⟨-, hm, h7, h30⟩ := addAverages_proj
          ((dateAxis (minGroupDate (typeFiltered t df)) today).map
            (fun d => (d, match (dailyGrouped (typeFiltered t df)).lookup d with
                          | some v => v
                          | none => 0)))
        rw [h7, h30, hm, rollingMean_head 7 (by omega)]
        exact ⟨rfl, rfl, rfl⟩

/-- Witness for C7 at `k = 7`, `xs = [2, 4]`, `i = 0`. -/
theorem claim_C7_witness :
    (recentWindow [(2 : ℚ), 4] 0 7).length = min (0 + 1) 7 ∧
    (rollingMean 7 [(2 : ℚ), 4])[0]? = some ((recentWindow [(2 : ℚ), 4] 0 7).sum
      / ((min (0 + 1) 7 : Nat) : ℚ)) :=
  claim_C7_theorem.1 7 [2, 4] 0 (by omega) (by simp)

/-! The Daily Aggregator refinement (C4). -/

/-- Specification-side treatment of one raw row (the §4.5 filtering steps):
convert distance (meters) to miles by the fixed factor, drop rows with null
miles, date or type and rows with non-positive miles, and drop rows not
matching the optional type filter. -/
def specRow (atype : Option (List Char)) (r : RawAct) : Option Act :=
  match r.distance, r.start_date, r.type with
  | some dist, some dt, some ty =>
    if 0 < dist * milesPerMeter ∧ (atype = none ∨ atype = some ty)
    then some ⟨dt, dist * milesPerMeter, ty⟩ else none
  | _, _, _ => none

/-- Rows surviving the specification's filtering steps. -/
def specSurvivors (atype : Option (List Char)) (rows : List RawAct) : List Act :=
  rows.filterMap (specRow atype)

/-- The daily series as §4.5 words it: one entry per day from the minimum
surviving date through the moment of computation inclusive, carrying the sum
of surviving miles grouped on that calendar day (0 for missing days). -/
def specDaily (today : Nat) (atype : Option (List Char)) (rows : List RawAct) :
    List (Nat × ℚ) :=
  match ((specSurvivors atype rows).map Act.date).min? with
  | none => []
  | some m => (dateAxis m today).map
      (fun d => (d, sumMilesOn (specSurvivors atype rows) d))

lemma typeFiltered_load (atype : Option (List Char)) (rows : List RawAct) :
    typeFiltered atype (load_strava_data rows) = specSurvivors atype rows := by
  cases atype with
  | none =>
    show List.filterMap loadRow rows = List.filterMap (specRow none) rows
    congr 1
    funext r
    rcases r with ⟨d, s, t⟩
    cases d <;> cases s <;> cases t <;> simp [loadRow, specRow]
  | some ty0 =>
    show List.filter (fun r => r.type == ty0) (List.filterMap loadRow rows)
        = List.filterMap (specRow (some ty0)) rows
    rw [List.filter_filterMap]
    congr 1
    funext r
    rcases r with ⟨d, s, t⟩
    cases d with
    | none => rfl
    | some dist =>
      cases s with
      | none => rfl
      | some dt =>
        cases t with
        | none => rfl
        | some ty =>
          show (loadRow ⟨some dist, some dt, some ty⟩).filter _ = _
          by_cases hm : 0 < dist * milesPerMeter
          · by_cases ht : ty = ty0
            · simp [loadRow, specRow, hm, ht, Option.filter]
            · have ht2 : ¬ty0 = ty := fun e => ht e.symm
              simp [loadRow, specRow, hm, ht, ht2, Option.filter]
          · by_cases ht : ty = ty0 <;>
              simp [loadRow, specRow, hm, ht, Option.filter]

lemma lookup_map_self {β : Type} (f : Nat → β) :
    ∀ (l : List Nat) (d : Nat),
      (l.map (fun x => (x, f x))).lookup d = if d ∈ l then some (f d) else none := by
  intro l
  induction l with
  | nil => intro d; rfl
  | cons a tl ih =>
    intro d
    by_cases hda : d = a
    · subst hda
      simp [List.lookup]
    · have hbeq : (d == a) = false := by simp [hda]
      simp [List.lookup, hbeq, hda, ih d]

lemma mem_groupDates (fil : List Act) (d : Nat) :
    d ∈ groupDates fil ↔ d ∈ fil.map Act.date := by
  unfold groupDates
  rw [List.mem_insertionSort, List.mem_dedup]

lemma grouped_lookup_eq (fil : List Act) (d : Nat) :
    (match (dailyGrouped fil).lookup d with | some v => v | none => 0)
      = sumMilesOn fil d := by
  unfold dailyGrouped
  rw [lookup_map_self (sumMilesOn fil) (groupDates fil) d]
  by_cases hd : d ∈ groupDates fil
  · simp [hd]
  · have hmem : d ∉ fil.map Act.date := fun hm => hd ((mem_groupDates fil d).mpr hm)
    have hfil : fil.filter (fun r => r.date == d) = [] := by
      rw [List.filter_eq_nil_iff]
      intro r hr hbeq
      apply hmem
      have : r.date = d := by simpa using hbeq
      exact this ▸ List.mem_map_of_mem Act.date hr
    simp [hd, sumMilesOn, hfil]

lemma dailyGrouped_fst (fil : List Act) :
    (dailyGrouped fil).map Prod.fst = groupDates fil := by
  unfold dailyGrouped
  rw [List.map_map]
  exact List.map_id'' (fun x => rfl) _

lemma nat_min?_mem_le {l : List Nat} {a : Nat} :
    l.min? = some a ↔ a ∈ l ∧ ∀ b, b ∈ l → a ≤ b :=
  List.min?_eq_some_iff (fun x => Nat.le_refl x)
    (fun x y => by omega) (fun x y z => by omega)

lemma min?_congr_mem {l₁ l₂ : List Nat} (h : ∀ x, x ∈ l₁ ↔ x ∈ l₂) :
    l₁.min? = l₂.min? := by
  cases h1 : l₁.min? with
  | none =>
    rw [List.min?_eq_none_iff] at h1
    subst h1
    symm
    rw [List.min?_eq_none_iff, List.eq_nil_iff_forall_not_mem]
    intro x hx
    exact (List.not_mem_nil x) ((h x).mpr hx)
  | some m =>
    obtain ⟨hmem, hle⟩ := nat_min?_mem_le.mp h1
    symm
    rw [nat_min?_mem_le]
    exact ⟨(h m).mp hmem, fun b hb => hle b ((h b).mpr hb)⟩

lemma groupDates_min? (fil : List Act) :
    (groupDates fil).min? = (fil.map Act.date).min? :=
  min?_congr_mem (mem_groupDates fil)

lemma zipRows_pairs : ∀ (bs : List (Nat × ℚ)) (xs ys : List ℚ),
    xs.length = bs.length → ys.length = bs.length →
    (zipRows bs xs ys).map (fun r => (r.date, r.miles)) = bs := by
  intro bs
  induction bs with
  | nil =>
    intro xs ys hx hy
    have hx0 : xs = [] := List.length_eq_zero.mp (by simpa using hx)
    have hy0 : ys = [] := List.length_eq_zero.mp (by simpa using hy)
    subst hx0; subst hy0
    rfl
  | cons b bs ih =>
    intro xs ys hx hy
    cases xs with
    | nil => simp at hx
    | cons x xs2 =>
      cases ys with
      | nil => simp at hy
      | cons y ys2 =>
        have h := ih xs2 ys2 (by simpa using hx) (by simpa using hy)
        simp [zipRows, h]

lemma addAverages_pairs (base : List (Nat × ℚ)) :
    (addAverages base).map (fun r => (r.date, r.miles)) = base := by
  unfold addAverages
  exact zipRows_pairs base _ _
    (by rw [rollingMean_length, List.length_map])
    (by rw [rollingMean_length, List.length_map])

/-- Raw rows of the spec's concrete daily-aggregation example: miles 3, 0
and 5 on three consecutive dates. -/
def c4Rows : List RawAct :=
  [⟨some (3 / milesPerMeter), some 10, some (s2l "Run")⟩,
   ⟨some 0, some 11, some (s2l "Run")⟩,
   ⟨some (5 / milesPerMeter), some 12, some (s2l "Run")⟩]

/-- Claim C4 (general part plus the spec's concrete instance): with a
non-empty set of surviving rows, the composition of `load_strava_data` and
`process_daily_miles` produces, date and miles wise, exactly the series the
specification describes — conversion by 0.000621371, null and non-positive
rows dropped, sums grouped by calendar day, contiguous axis from the minimum
surviving date through today with zero fill; and for miles [3, 0, 5] on
three consecutive dates with no filter the three-point series sums to 8. -/
theorem claim_C4_theorem :
    (∀ (today : Nat) (atype : Option (List Char)) (rows : List RawAct),
      specSurvivors atype rows ≠ [] →
      (process_daily_miles today (load_strava_data rows) atype).map
          (fun r => (r.date, r.miles))
        = specDaily today atype rows) ∧
    (((process_daily_miles 12 (load_strava_data c4Rows) none).map DayRow.miles).sum
        = 8 ∧
      (process_daily_miles 12 (load_strava_data c4Rows) none).map DayRow.date
        = [10, 11, 12]) := by
  have hmain : ∀ (today : Nat) (atype : Option (List Char)) (rows : List RawAct),
      specSurvivors atype rows ≠ [] →
      (process_daily_miles today (load_strava_data rows) atype).map
          (fun r => (r.date, r.miles))
        = specDaily today atype rows := by
    intro today atype rows hne
    have hfil := typeFiltered_load atype rows
    have hdf : load_strava_data rows ≠ [] := by
      intro h0
      apply hne
      rw [← hfil, h0]
      cases atype <;> rfl
    have hdates : (specSurvivors atype rows).map Act.date ≠ [] := by
      simpa using hne
    obtain ⟨m, hm⟩ : ∃ m, ((specSurvivors atype rows).map Act.date).min? = some m := by
      cases h : ((specSurvivors atype rows).map Act.date).min? with
      | none => exact absurd (List.min?_eq_none_iff.mp h) hdates
      | some m => exact ⟨m, rfl⟩
    have hgne : dailyGrouped (specSurvivors atype rows) ≠ [] := by
      unfold dailyGrouped
      intro h0
      have hg0 : groupDates (specSurvivors atype rows) = [] := by simpa using h0
      have hmem := (nat_min?_mem_le.mp hm).1
      have : m ∈ groupDates (specSurvivors atype rows) :=
        (mem_groupDates _ m).mpr hmem
      rw [hg0] at this
      exact List.not_mem_nil m this
    unfold process_daily_miles
    rw [if_neg hdf, hfil, if_neg hgne]
    have hmin : minGroupDate (specSurvivors atype rows) = m := by
      unfold minGroupDate
      rw [dailyGrouped_fst, groupDates_min?, hm]
      rfl
    rw [addAverages_pairs, hmin]
    unfold specDaily
    rw [hm]
    apply List.map_congr_left
    intro d _
    rw [grouped_lookup_eq]
  refine ⟨hmain, ?_⟩
  have hc : milesPerMeter ≠ 0 := by norm_num [milesPerMeter]
  have h3 : (3 : ℚ) / milesPerMeter * milesPerMeter = 3 := div_mul_cancel₀ 3 hc
  have h5 : (5 : ℚ) / milesPerMeter * milesPerMeter = 5 := div_mul_cancel₀ 5 hc
  have h3p : (0 : ℚ) < 3 / milesPerMeter * milesPerMeter := by rw [h3]; norm_num
  have h5p : (0 : ℚ) < 5 / milesPerMeter * milesPerMeter := by rw [h5]; norm_num
  have hr1 : loadRow ⟨some (3 / milesPerMeter), some 10, some (s2l "Run")⟩
      = some ⟨10, 3, s2l "Run"⟩ := by
    simp [loadRow, h3p, h3]
  have hr2 : loadRow ⟨some 0, some 11, some (s2l "Run")⟩ = none := by
    simp [loadRow]
  have hr3 : loadRow ⟨some (5 / milesPerMeter), some 12, some (s2l "Run")⟩
      = some ⟨12, 5, s2l "Run"⟩ := by
    simp [loadRow, h5p, h5]
  have hload : load_strava_data c4Rows
      = [⟨10, 3, s2l "Run"⟩, ⟨12, 5, s2l "Run"⟩] := by
    simp [load_strava_data, c4Rows, List.filterMap_cons, hr1, hr2, hr3]
  have hsurv : specSurvivors none c4Rows = [⟨10, 3, s2l "Run"⟩, ⟨12, 5, s2l "Run"⟩] := by
    rw [← typeFiltered_load none c4Rows]
    exact hload
  have hne : specSurvivors none c4Rows ≠ [] := by
    rw [hsurv]
    simp
  have hpair := hmain 12 none c4Rows hne
  have hmindates : ((specSurvivors none c4Rows).map Act.date).min? = some 10 := by
    rw [hsurv]
    decide
  have hspec : specDaily 12 none c4Rows = [(10, 3), (11, 0), (12, 5)] := by
    unfold specDaily
    rw [hmindates, hsurv]
    show (dateAxis 10 12).map _ = _
    have haxis : dateAxis 10 12 = [10, 11, 12] := rfl
    rw [haxis]
    simp [sumMilesOn]
  have hmap2 : (process_daily_miles 12 (load_strava_data c4Rows) none).map DayRow.miles
      = (specDaily 12 none c4Rows).map Prod.snd := by
    rw [← hpair, List.map_map]
    rfl
  have hmap1 : (process_daily_miles 12 (load_strava_data c4Rows) none).map DayRow.date
      = (specDaily 12 none c4Rows).map Prod.fst := by
    rw [← hpair, List.map_map]
    rfl
  constructor
  · rw [hmap2, hspec]
    norm_num
  · rw [hmap1, hspec]
    rfl

/-- Witness for C4: the concrete example discharges the non-emptiness
hypothesis of the general statement. -/
theorem claim_C4_witness :
    specSurvivors none c4Rows ≠ [] ∧
    (process_daily_miles 12 (load_strava_data c4Rows) none).map
        (fun r => (r.date, r.miles))
      = specDaily 12 none c4Rows := by
  have hc : milesPerMeter ≠ 0 := by norm_num [milesPerMeter]
  have h3 : (3 : ℚ) / milesPerMeter * milesPerMeter = 3 := div_mul_cancel₀ 3 hc
  have h3p : (0 : ℚ) < 3 / milesPerMeter * milesPerMeter := by rw [h3]; norm_num
  have hne : specSurvivors none c4Rows ≠ [] := by
    have : specRow none ⟨some (3 / milesPerMeter), some 10, some (s2l "Run")⟩
        = some ⟨10, 3 / milesPerMeter * milesPerMeter, s2l "Run"⟩ := by
      simp [specRow, h3p]
    simp [specSurvivors, c4Rows, List.filterMap_cons, this]
  exact ⟨hne, claim_C4_theorem.1 12 none c4Rows hne⟩

/-! The Calendar Binner (`create_calendar_heatmap`, `strava_dashboard.py`
lines 218-364). -/

/-- Ascending sort (Python `sorted`). -/
def sortNatAsc (l : List Nat) : List Nat := List.insertionSort (fun a b => a ≤ b) l

/-- Descending sort (Python `sorted(..., reverse=True)`). -/
def sortNatDesc (l : List Nat) : List Nat := List.insertionSort (fun a b => b ≤ a) l

/-- Mean cell of the pivot table: pandas `pivot_table` with its default mean
aggregation over the matching rows and `fill_value = 0` for combinations
with no data (lines 271-276). -/
def pivotCell (yd : List DayRow) (dow wk : Nat) : ℚ :=
  let ms := (yd.filter (fun r =>
    dowOfDay r.date == dow && isoWeekOfDay r.date == wk)).map DayRow.miles
  if ms.length = 0 then 0 else ms.sum / ms.length

/-- Rows with non-zero miles (line 233). -/
def nonZeroRows (daily : List DayRow) : List DayRow :=
  daily.filter (fun r => decide (0 < r.miles))

/-- First visible date: the earliest date with non-zero miles (line 237). -/
def hmStart (daily : List DayRow) : Nat :=
  (((nonZeroRows daily).map DayRow.date).min?).getD 0

/-- Last visible date: the latest date of the series (line 238). -/
def hmEnd (daily : List DayRow) : Nat :=
  ((daily.map DayRow.date).max?).getD 0

/-- The visible rows of the heatmap (line 241). -/
def hmRows (daily : List DayRow) : List DayRow :=
  daily.filter (fun r => decide (hmStart daily ≤ r.date) && decide (r.date ≤ hmEnd daily))

/-- ISO week numbers present in the visible range (line 245). -/
def hmWeeks (daily : List DayRow) : List Nat :=
  (hmRows daily).map (fun r => isoWeekOfDay r.date)

/-- Smallest week number present (line 253). -/
def hmMinW (daily : List DayRow) : Nat := ((hmWeeks daily).min?).getD 0

/-- Largest week number present (line 254). -/
def hmMaxW (daily : List DayRow) : Nat := ((hmWeeks daily).max?).getD 0

/-- The global week axis `list(range(min_week, max_week + 1))` (line 255). -/
def hmWeekRange (daily : List DayRow) : List Nat :=
  List.range' (hmMinW daily) (hmMaxW daily + 1 - hmMinW daily)

/-- Calendar years present, most recent first (line 249). -/
def hmYears (daily : List DayRow) : List Nat :=
  sortNatDesc ((hmRows daily).map (fun r => yearOfDay r.date)).dedup

/-- Visible rows belonging to one calendar year (line 268). -/
def yearRows (daily : List DayRow) (y : Nat) : List DayRow :=
  (hmRows daily).filter (fun r => yearOfDay r.date == y)

/-- Week-number columns of one year's sub-grid: the year's own weeks, the
missing weeks of the global axis appended (lines 283-286), then sorted
(line 290). -/
def yearCols (daily : List DayRow) (y : Nat) : List Nat :=
  sortNatAsc (((yearRows daily y).map (fun r => isoWeekOfDay r.date)
    ++ hmWeekRange daily).dedup)

/-- One year's sub-grid: rows Monday..Sunday (lines 279-281, 289), true
cell values, and the display copy clipped at 20 (line 293). -/
structure YearGrid : Type where
  year : Nat
  cols : List Nat
  cells : List (List ℚ)
  display : List (List ℚ)

/-- The sub-grid built for one year. -/
def yearGridOf (daily : List DayRow) (y : Nat) : YearGrid :=
  { year := y,
    cols := yearCols daily y,
    cells := (List.range 7).map (fun dow =>
      (yearCols daily y).map (pivotCell (yearRows daily y) dow)),
    display := (List.range 7).map (fun dow =>
      (yearCols daily y).map (fun wk => min (pivotCell (yearRows daily y) dow wk) 20)) }

/-- The produced heatmap: the global week axis and one sub-grid per year. -/
structure Heatmap : Type where
  weekRange : List Nat
  grids : List YearGrid

/-- The Calendar Binner `create_calendar_heatmap`: `none` models the "no
data" outcome for an empty series or a series with no non-zero miles. -/
def create_calendar_heatmap (daily : List DayRow) : Option Heatmap :=
  if daily = [] then none
  else if nonZeroRows daily = [] then none
  else some { weekRange := hmWeekRange daily,
              grids := (hmYears daily).map (yearGridOf daily) }

lemma nat_max?_mem_le {l : List Nat} {a : Nat} :
    l.max? = some a ↔ a ∈ l ∧ ∀ b ∈ l, b ≤ a :=
  List.max?_eq_some_iff (fun x => Nat.le_refl x)
    (fun x y => by omega) (fun x y z => by omega)

lemma mem_range'_iff {s n m : Nat} : m ∈ List.range' s n ↔ s ≤ m ∧ m < s + n := by
  rw [List.mem_range']
  constructor
  · rintro ⟨i, hi, rfl⟩
    omega
  · intro ⟨h1, h2⟩
    exact ⟨m - s, by omega, by omega⟩

lemma sort_dedup_union_range (extra : List Nat) (a n : Nat)
    (hsub : ∀ x ∈ extra, x ∈ List.range' a n) :
    sortNatAsc ((extra ++ List.range' a n).dedup) = List.range' a n := by
  apply List.eq_of_perm_of_sorted (r := fun x y => x ≤ y)
  · refine (List.perm_insertionSort _ _).trans ?_
    apply (List.perm_ext_iff_of_nodup (List.nodup_dedup _) (List.nodup_range' a n)).mpr
    intro x
    rw [List.mem_dedup, List.mem_append]
    constructor
    · rintro (h | h)
      · exact hsub x h
      · exact h
    · exact Or.inr
  · exact List.sorted_insertionSort _ _
  · exact List.pairwise_le_range' a n

lemma hmRows_ne_nil (daily : List DayRow) (hnz : nonZeroRows daily ≠ []) :
    hmRows daily ≠ [] := by
  obtain ⟨r0, tl, hr0⟩ := List.exists_cons_of_ne_nil hnz
  have hr0mem : r0 ∈ nonZeroRows daily := by
    rw [hr0]
    exact List.mem_cons_self _ _
  have hr0daily : r0 ∈ daily := List.mem_of_mem_filter hr0mem
  obtain ⟨m, hm⟩ : ∃ m, ((nonZeroRows daily).map DayRow.date).min? = some m := by
    cases h : ((nonZeroRows daily).map DayRow.date).min? with
    | none =>
      rw [List.min?_eq_none_iff, List.map_eq_nil_iff] at h
      exact absurd h hnz
    | some m => exact ⟨m, rfl⟩
  obtain ⟨M, hM⟩ : ∃ M, (daily.map DayRow.date).max? = some M := by
    cases h : (daily.map DayRow.date).max? with
    | none =>
      rw [List.max?_eq_none_iff, List.map_eq_nil_iff] at h
      exact absurd (h ▸ hr0daily) (List.not_mem_nil r0)
    | some M => exact ⟨M, rfl⟩
  have hstart : hmStart daily ≤ r0.date := by
    unfold hmStart
    rw [hm]
    exact (nat_min?_mem_le.mp hm).2 r0.date (List.mem_map_of_mem DayRow.date hr0mem)
  have hend : r0.date ≤ hmEnd daily := by
    unfold hmEnd
    rw [hM]
    exact (nat_max?_mem_le.mp hM).2 r0.date (List.mem_map_of_mem DayRow.date hr0daily)
  intro h0
  have : r0 ∈ hmRows daily := by
    unfold hmRows
    rw [List.mem_filter]
    exact ⟨hr0daily, by simp [hstart, hend]⟩
  rw [h0] at this
  exact List.not_mem_nil r0 this

lemma yearCols_eq (daily : List DayRow) (y : Nat) (hne : hmRows daily ≠ []) :
    yearCols daily y = hmWeekRange daily := by
  unfold yearCols hmWeekRange
  apply sort_dedup_union_range
  intro x hx
  have hx2 : x ∈ hmWeeks daily := by
    obtain ⟨r, hr, rfl⟩ := List.mem_map.mp hx
    exact List.mem_map_of_mem _ (List.mem_of_mem_filter hr)
  have hw : hmWeeks daily ≠ [] := by
    unfold hmWeeks
    rw [Ne, List.map_eq_nil_iff]
    exact hne
  obtain ⟨mw, hmw⟩ : ∃ mw, (hmWeeks daily).min? = some mw := by
    cases h : (hmWeeks daily).min? with
    | none => exact absurd (List.min?_eq_none_iff.mp h) hw
    | some mw => exact ⟨mw, rfl⟩
  obtain ⟨Mw, hMw⟩ : ∃ Mw, (hmWeeks daily).max? = some Mw := by
    cases h : (hmWeeks daily).max? with
    | none => exact absurd (List.max?_eq_none_iff.mp h) hw
    | some Mw => exact ⟨Mw, rfl⟩
  have h1 := (nat_min?_mem_le.mp hmw).2 x hx2
  have h2 := (nat_max?_mem_le.mp hMw).2 x hx2
  unfold hmMinW hmMaxW
  rw [hmw, hMw, mem_range'_iff]
  simp only [Option.getD_some]
  omega

/-- Claim C8 (amended): for a daily series whose visible range spans
multiple calendar years, every year's sub-grid carries the identical list of
week-number columns — the contiguous range from the minimum to the maximum
week number present in the visible range (not merely the union of the
years' own weeks) — and a (day, week) combination absent from a year's data
is filled with 0. -/
theorem claim_C8_theorem (daily : List DayRow) (res : Heatmap)
    (hres : create_calendar_heatmap daily = some res)
    (_hyears : 2 ≤ res.grids.length) :
    (∀ g ∈ res.grids, g.cols = res.weekRange) ∧
    (∀ g1 ∈ res.grids, ∀ g2 ∈ res.grids, g1.cols = g2.cols) ∧
    (∀ (yd : List DayRow) (dow wk : Nat),
      yd.filter (fun r => dowOfDay r.date == dow && isoWeekOfDay r.date == wk) = [] →
      pivotCell yd dow wk = 0) := by
  unfold create_calendar_heatmap at hres
  by_cases h0 : daily = []
  · rw [if_pos h0] at hres
    exact absurd hres (by simp)
  rw [if_neg h0] at hres
  by_cases hnz : nonZeroRows daily = []
  · rw [if_pos hnz] at hres
    exact absurd hres (by simp)
  rw [if_neg hnz] at hres
  have hres2 := Option.some.inj hres
  have hcols : ∀ g ∈ res.grids, g.cols = res.weekRange := by
    intro g hg
    rw [← hres2] at hg ⊢
    simp only at hg ⊢
    obtain ⟨y, _, rfl⟩ := List.mem_map.mp hg
    show yearCols daily y = hmWeekRange daily
    exact yearCols_eq daily y (hmRows_ne_nil daily hnz)
  refine ⟨hcols, fun g1 h1 g2 h2 => (hcols g1 h1).trans (hcols g2 h2).symm, ?_⟩
  intro yd dow wk hfil
  unfold pivotCell
  rw [hfil]
  rfl

/-- Daily series for the C8 evaluations: one mile on each of the seven days
from 2021-12-29 (day index 7667) through 2022-01-04, spanning two calendar
years with ISO weeks 52 and 1 only. -/
def c8Series : List DayRow := (List.range' 7667 7).map (fun d => ⟨d, 1, 1, 1⟩)

/-- The heatmap the Binner builds for `c8Series`. -/
def c8Res : Heatmap :=
  { weekRange := hmWeekRange c8Series,
    grids := (hmYears c8Series).map (yearGridOf c8Series) }

/-- Witness for C8: on the two-year series both sub-grids carry the global
week axis as their column list. -/
theorem claim_C8_witness :
    c8Res.grids.map YearGrid.cols = [c8Res.weekRange, c8Res.weekRange] := by
  have h := (claim_C8_theorem c8Series c8Res rfl (by decide)).1
  have h2 : c8Res.grids.map YearGrid.cols = c8Res.grids.map (fun _ => c8Res.weekRange) :=
    List.map_congr_left (fun g hg => h g hg)
  rw [h2]
  rfl

/-- Counterexample to C8 as stated: on the two-year series covering only ISO
weeks 52 and 1, every sub-grid's column set is the contiguous range 1..52,
not the union {1, 52} of the week numbers present across the years (week 10,
for instance, is a column although it belongs to no year's data). -/
theorem claim_C8_counterexample :
    (create_calendar_heatmap c8Series).map (fun res => res.grids.map YearGrid.year)
      = some [2022, 2021] ∧
    (create_calendar_heatmap c8Series).map (fun res => res.grids.map YearGrid.cols)
      = some [List.range' 1 52, List.range' 1 52] ∧
    sortNatAsc ((c8Series.map (fun r => isoWeekOfDay r.date)).dedup) = [1, 52] ∧
    10 ∈ List.range' 1 52 ∧ 10 ∉ ([1, 52] : List Nat) :=
  ⟨by decide, by decide, by decide, by decide, by decide⟩

end Strava
